import Mathlib

/-!
Verification of the content-extraction and HTML-sanitization core of the
Dyslexia-Web-Reader repository, as a shallow embedding in Lean 4.

The embedding models the post-parse DOM: a document is a tree of element,
text and comment nodes (`DNode`).  Parsing (`DOMParser.parseFromString`)
and serialization (`innerHTML`) are the browser's and are outside the
model; every function below is translated from the repository's
TypeScript sources:

  * the allowlist sanitizer (`sanitizeHtml` / `cleanNode`),
  * the DOMPurify wrapper's allowlist configuration,
  * the vendored lite readability port (`parseReadability`,
    `findArticleContent`, `extractTitle`, `extractByline`),
  * the extractor (`extractArticle`, `articleIdFromUrl`).

Strings are modelled as Lean strings; the JavaScript string operations
used by the sources (`trim`, `toLowerCase`, `startsWith`, `length`,
`slice`) are reimplemented below on the character list so that all
definitions reduce inside the kernel.  JavaScript's `length` counts
UTF-16 code units while Lean counts scalar code points; the two agree on
the ASCII inputs used throughout, and no claim depends on non-ASCII
lengths.
-/

/-- A DOM node after parsing: an element with a tag name, an ordered
attribute list (attribute names are unique and lower-cased by the HTML
parser) and ordered children, a text node, or a comment node. -/
inductive DNode where
  | element (tag : String) (attrs : List (String × String)) (children : List DNode)
  | text (s : String)
  | comment (s : String)

/-- Whitespace recognised by JavaScript's `trim` (ASCII part: space, tab,
line feed, carriage return, vertical tab, form feed). -/
def jsWhitespace (c : Char) : Bool :=
  c == ' ' || c == '\t' || c == '\n' || c == '\r' || c == '\x0b' || c == '\x0c'

/-- Drop leading and trailing whitespace from a character list. -/
def trimChars (cs : List Char) : List Char :=
  ((cs.dropWhile jsWhitespace).reverse.dropWhile jsWhitespace).reverse

/-- JavaScript `String.prototype.trim` (ASCII whitespace). -/
def jsTrim (s : String) : String := ⟨trimChars s.data⟩

/-- ASCII lower-casing of one character, as `toLowerCase` acts on ASCII. -/
def lowerChar (c : Char) : Char :=
  if 'A' ≤ c && c ≤ 'Z' then Char.ofNat (c.toNat + 32) else c

/-- JavaScript `String.prototype.toLowerCase` restricted to ASCII. -/
def lowerStr (s : String) : String := ⟨s.data.map lowerChar⟩

/-- Does the first character list begin with the second? -/
def beginsWith : List Char → List Char → Bool
  | _, [] => true
  | [], _ :: _ => false
  | c :: cs, p :: ps => c == p && beginsWith cs ps

/-- JavaScript `String.prototype.startsWith`. -/
def strBegins (s pat : String) : Bool := beginsWith s.data pat.data

/-- Does `pat` occur as a contiguous substring of the character list? -/
def subOccurs : List Char → List Char → Bool
  | [], pat => pat.isEmpty
  | c :: cs, pat => beginsWith (c :: cs) pat || subOccurs cs pat

/-- Substring test on strings (used to state inclusion/exclusion of
phrases in extracted text). -/
def strHas (s pat : String) : Bool := subOccurs s.data pat.data

/-- JavaScript `String.prototype.slice(0, n)`. -/
def strTake (s : String) (n : Nat) : String := ⟨s.data.take n⟩

/-- Split a character list at whitespace, dropping empty tokens; the
accumulator holds the current token reversed. -/
def splitWsAux : List Char → List Char → List (List Char)
  | [], acc => if acc.isEmpty then [] else [acc.reverse]
  | c :: cs, acc =>
    if jsWhitespace c then
      if acc.isEmpty then splitWsAux cs [] else acc.reverse :: splitWsAux cs []
    else splitWsAux cs (c :: acc)

/-- The whitespace-separated tokens of a `class` attribute value, as used
by CSS class-selector matching. -/
def classTokens (s : String) : List String := (splitWsAux s.data []).map (⟨·⟩)

/-- Join tokens with single spaces (for the HTML `document.title`
strip-and-collapse rule). -/
def joinTokens : List String → String
  | [] => ""
  | [t] => t
  | t :: ts => t ++ " " ++ joinTokens ts

/-- Strip and collapse ASCII whitespace, as the `document.title` getter
does. -/
def collapseWs (s : String) : String := joinTokens (classTokens s)

/-- First attribute value for a name, as `getAttribute` (attribute names
are unique after parsing, so first = only). -/
def getAttr (attrs : List (String × String)) (name : String) : Option String :=
  (attrs.find? (fun p => p.1 == name)).map (·.2)

/-- Does the element carry the attribute, as `hasAttribute`. -/
def hasAttr (attrs : List (String × String)) (name : String) : Bool :=
  attrs.any (fun p => p.1 == name)

/-- Replace the value of an existing attribute, as `setAttribute` on an
attribute that is present (position preserved). -/
def setAttrVal (attrs : List (String × String)) (name v : String) :
    List (String × String) :=
  attrs.map (fun p => if p.1 == name then (p.1, v) else p)

/-- Remove an attribute, as `removeAttribute`. -/
def removeAttr (attrs : List (String × String)) (name : String) :
    List (String × String) :=
  attrs.filter (fun p => !(p.1 == name))

/-!
Custom allowlist sanitizer, translated from the repository's
dependency-free sanitizer module (`ALLOWED_TAGS`, `ALLOWED_ATTRS`,
`sanitizeHtml`, `cleanNode`).
-/

/-- The sanitizer's allowed-tag set (`ALLOWED_TAGS`), in source order. -/
def ALLOWED_TAGS : List String :=
  ["p", "br", "hr", "h1", "h2", "h3", "h4", "h5", "h6",
   "ul", "ol", "li", "blockquote", "pre", "code",
   "em", "strong", "b", "i", "u", "sub", "sup", "mark",
   "a", "img", "figure", "figcaption", "table", "thead",
   "tbody", "tr", "th", "td", "span", "div", "section"]

/-- Per-tag allowed attributes (`ALLOWED_ATTRS`); tags with no entry
allow zero attributes (`ALLOWED_ATTRS[tag] || new Set()`). -/
def allowedAttrsFor (tag : String) : List String :=
  if tag == "a" then ["href", "title"]
  else if tag == "img" then ["src", "alt", "title", "width", "height"]
  else if tag == "td" then ["colspan", "rowspan"]
  else if tag == "th" then ["colspan", "rowspan"]
  else []

/-- The `javascript:`-scheme test used on `href`/`src` values:
`value.trim().toLowerCase().startsWith('javascript:')`. -/
def isJsUrl (v : String) : Bool := strBegins (lowerStr (jsTrim v)) "javascript:"

/-- Attribute processing of `cleanNode` for an element whose (lower-cased)
tag is allowed: drop every attribute not in the tag's allowed set
(iteration over a snapshot of `el.attributes`, i.e. a filter), then
replace a `javascript:` `href` by `"#"` and remove a `javascript:`
`src`. -/
def stripAttrs (tagLower : String) (attrs : List (String × String)) :
    List (String × String) :=
  let allowed := allowedAttrsFor tagLower
  let kept := attrs.filter (fun p => allowed.contains p.1)
  let kept :=
    if hasAttr kept "href" && isJsUrl ((getAttr kept "href").getD "") then
      setAttrVal kept "href" "#"
    else kept
  if hasAttr kept "src" && isJsUrl ((getAttr kept "src").getD "") then
    removeAttr kept "src"
  else kept

mutual
/-- Size of a node; elements weigh 2 so that an unwrapped, emptied element
still counts, which the termination argument for `cleanLoop` needs. -/
def nodeSize : DNode → Nat
  | .element _ _ ch => 2 + nodesSize ch
  | .text _ => 1
  | .comment _ => 1

/-- Total size of a node list. -/
def nodesSize : List DNode → Nat
  | [] => 0
  | n :: ns => nodeSize n + nodesSize ns
end

theorem nodeSize_pos (n : DNode) : 0 < nodeSize n := by
  cases n <;> simp [nodeSize]

theorem nodesSize_append (a b : List DNode) :
    nodesSize (a ++ b) = nodesSize a + nodesSize b := by
  induction a with
  | nil => simp [nodesSize]
  | cons n ns ih => simp [nodesSize, ih]; omega

theorem unwrap_size_lt (tag : String) (attrs : List (String × String))
    (c : DNode) (cs rest : List DNode) :
    nodesSize (cs ++ DNode.element tag attrs [] :: rest) <
      nodesSize (DNode.element tag attrs (c :: cs) :: rest) := by
  have := nodeSize_pos c
  simp [nodesSize, nodeSize, nodesSize_append]
  omega

mutual
/--
The child-processing loop of `cleanNode`, translated statement by
statement from the source.

The source iterates `node.childNodes.forEach(child => ...)` where
`childNodes` is a *live* `NodeList` and WebIDL's `forEach` re-reads the
list after every callback, advancing a plain index.  Unwrapping a
disallowed element `el` with children `c :: cs` moves `c, cs...` in order
to just before `el` (`insertBefore(el.firstChild, el)` until empty), so
after the callback the current index holds `c` and the iteration resumes
one past it: `c` is emitted *unvisited*, and the emptied `el` stays in the
list, later revisited (a no-op unwrap) and queued for removal.

The argument is the suffix of the live child list from the current index
on; the result pairs each final list entry with its membership in
`toRemove` (`true` = queued for removal).  Marks arise only from the loop
itself: comment children are queued, emptied disallowed wrappers are
queued, everything else is kept.
-/
def cleanLoop : List DNode → List (DNode × Bool)
  | [] => []
  | .text s :: rest => (.text s, false) :: cleanLoop rest
  | .comment s :: rest => (.comment s, true) :: cleanLoop rest
  | .element tag attrs ch :: rest =>
    if ALLOWED_TAGS.contains (lowerStr tag) then
      (.element tag (stripAttrs (lowerStr tag) attrs) (cleanChildren ch), false)
        :: cleanLoop rest
    else
      match ch with
      | [] => (.element tag attrs [], true) :: cleanLoop rest
      | c :: cs => (c, false) :: cleanLoop (cs ++ .element tag attrs [] :: rest)
  termination_by l => nodesSize l
  decreasing_by
  all_goals first
  | apply unwrap_size_lt
  | (simp [nodesSize, nodeSize]; try omega)

/-- `cleanNode` applied to the children of a node: run the loop from
index 0, then execute `toRemove.forEach(n => n.parentNode?.removeChild(n))`
by dropping every queued entry. -/
def cleanChildren (cs : List DNode) : List DNode :=
  (cleanLoop cs).filterMap (fun p => if p.2 then none else some p.1)
  termination_by nodesSize cs + 1
  decreasing_by simp
end

mutual
/-- Structural presentation of one visit of `cleanLoop`: the list segment
the loop emits for one processed child.  Because unwrapping splices the
children locally, the loop's output over a concatenation is the
concatenation of the outputs; `cleanLoop_eq_cleanL` below proves this
presentation equal to `cleanLoop`, and it is the one the kernel can
evaluate on concrete inputs. -/
def cleanN : DNode → List (DNode × Bool)
  | .text s => [(.text s, false)]
  | .comment s => [(.comment s, true)]
  | .element tag attrs ch =>
    if ALLOWED_TAGS.contains (lowerStr tag) then
      [(.element tag (stripAttrs (lowerStr tag) attrs)
          ((cleanL ch).filterMap (fun p => if p.2 then none else some p.1)), false)]
    else
      match ch with
      | [] => [(.element tag attrs [], true)]
      | c :: cs => (c, false) :: (cleanL cs ++ [(.element tag attrs [], true)])

/-- Structural presentation of `cleanLoop` on a whole child list. -/
def cleanL : List DNode → List (DNode × Bool)
  | [] => []
  | c :: cs => cleanN c ++ cleanL cs
end

mutual
/-- The in-order list of text-node payloads in a subtree (comment nodes
carry no text). -/
def textsOf : DNode → List String
  | .element _ _ ch => textsOfList ch
  | .text s => [s]
  | .comment _ => []

/-- Text-node payloads of a node list, in order. -/
def textsOfList : List DNode → List String
  | [] => []
  | c :: cs => textsOf c ++ textsOfList cs
end

mutual
/-- Contribution of one child to an element's `textContent`: the DOM
concatenates the data of all text-node descendants in tree order, so a
comment child contributes nothing. -/
def elemText : DNode → String
  | .element _ _ ch => elemTexts ch
  | .text s => s
  | .comment _ => ""

/-- `textContent` concatenation over a child list. -/
def elemTexts : List DNode → String
  | [] => ""
  | c :: cs => elemText c ++ elemTexts cs
end

/-!
Content Locator, translated from the vendored lite readability port
(`parseReadability`, `findArticleContent`, `extractTitle`,
`extractByline`).  The noise-removal pass uses `querySelectorAll` with a
fixed selector list; the selectors that actually occur are tag selectors,
class selectors, id selectors and exact attribute-value selectors, so the
matcher models exactly those.  `querySelectorAll` on a document returns
every matching element in document (preorder) order; on an element it
returns matching proper descendants.
-/

/-- The selector forms used by the locator's fixed selector lists. -/
inductive Sel where
  | byTag (t : String)
  | byClass (c : String)
  | byId (v : String)
  | byAttrVal (k v : String)
  | byTagAttrVal (t k v : String)

/-- CSS matching of one selector against an element's tag and attributes:
tag selectors match case-insensitively, a class selector matches a
whitespace-separated token of the `class` attribute exactly, id and
attribute-value selectors compare exactly. -/
def matchesSelE (s : Sel) (tag : String) (attrs : List (String × String)) : Bool :=
  match s with
  | .byTag t => lowerStr tag == t
  | .byClass c => (classTokens ((getAttr attrs "class").getD "")).contains c
  | .byId v => getAttr attrs "id" == some v
  | .byAttrVal k v => getAttr attrs k == some v
  | .byTagAttrVal t k v => lowerStr tag == t && getAttr attrs k == some v

/-- Selector matching on a node (text and comment nodes never match). -/
def matchesSel (s : Sel) : DNode → Bool
  | .element t a _ => matchesSelE s t a
  | _ => false

/-- The locator's `noiseSelectors` list, in source order. -/
def noiseSelectors : List Sel :=
  [.byTag "script", .byTag "style", .byTag "noscript", .byTag "iframe",
   .byTag "nav", .byTag "footer", .byTag "header", .byTag "aside",
   .byAttrVal "role" "banner", .byAttrVal "role" "navigation",
   .byAttrVal "role" "complementary",
   .byClass "sidebar", .byClass "nav", .byClass "footer", .byClass "header",
   .byClass "ad", .byClass "advertisement", .byClass "social-share",
   .byClass "comments", .byId "comments", .byClass "related-posts"]

mutual
/-- Remove every element matching the selector from a subtree.
`querySelectorAll(sel)` snapshots the matches in document order and
`el.remove()` detaches each; removing an ancestor first detaches its
matching descendants with it, so the net effect equals this top-down
prune. -/
def pruneNode (s : Sel) : DNode → Option DNode
  | .element t a ch =>
    if matchesSelE s t a then none else some (.element t a (pruneList s ch))
  | .text str => some (.text str)
  | .comment str => some (.comment str)

/-- Prune a child list for one selector. -/
def pruneList (s : Sel) : List DNode → List DNode
  | [] => []
  | c :: cs =>
    match pruneNode s c with
    | none => pruneList s cs
    | some c' => c' :: pruneList s cs
end

/-- The noise-removal pass: apply each selector's removal in turn to the
document's child list (`noiseSelectors.forEach(sel =>
clone.querySelectorAll(sel).forEach(el => el.remove()))`). -/
def removeNoise (kids : List DNode) : List DNode :=
  noiseSelectors.foldl (fun ks s => pruneList s ks) kids

mutual
/-- All elements of a subtree in preorder (document order), including the
root when it is an element. -/
def subtreeElems : DNode → List DNode
  | .element t a ch => .element t a ch :: subtreeList ch
  | _ => []

/-- Preorder elements of a node list. -/
def subtreeList : List DNode → List DNode
  | [] => []
  | c :: cs => subtreeElems c ++ subtreeList cs
end

mutual
/-- All elements of a subtree in preorder, paired with their depth, where
the depth of a node counts the element itself and its element ancestors
(the `while (parent) { depth++; parent = parent.parentElement }` loop of
the scorer). -/
def subtreeElemsD (d : Nat) : DNode → List (DNode × Nat)
  | .element t a ch => (.element t a ch, d) :: subtreeListD (d + 1) ch
  | _ => []

/-- Preorder elements with depth over a node list. -/
def subtreeListD (d : Nat) : List DNode → List (DNode × Nat)
  | [] => []
  | c :: cs => subtreeElemsD d c ++ subtreeListD d cs
end

/-- All elements of a document (its child list holds the `html` element,
which has depth 1: its `parentElement` is null). -/
def allElems (kids : List DNode) : List DNode := kids.flatMap subtreeElems

/-- The lower-cased tag of an element node. -/
def tagLowerOf : DNode → Option String
  | .element t _ _ => some (lowerStr t)
  | _ => none

/-- Tag test against a lower-case name. -/
def hasTagL (e : DNode) (t : String) : Bool := tagLowerOf e == some t

/-- Attributes of a node (empty for non-elements). -/
def attrsOf : DNode → List (String × String)
  | .element _ a _ => a
  | _ => []

/-- Children of a node (empty for non-elements). -/
def childrenOf : DNode → List DNode
  | .element _ _ ch => ch
  | _ => []

/-- `doc.querySelectorAll('article')`. -/
def articleElems (kids : List DNode) : List DNode :=
  (allElems kids).filter (fun e => hasTagL e "article")

/-- `doc.querySelector('main, [role="main"]')`: first element in document
order that is a `main` element or carries `role="main"`. -/
def mainElem (kids : List DNode) : Option DNode :=
  (allElems kids).find? (fun e =>
    hasTagL e "main" || matchesSel (.byAttrVal "role" "main") e)

/-- `el.querySelectorAll('p')`: paragraph descendants of an element. -/
def descParas (el : DNode) : List DNode :=
  (subtreeList (childrenOf el)).filter (fun e => hasTagL e "p")

/-- The paragraph sum of the scorer: add the trimmed text length of every
paragraph whose trimmed text exceeds 40 characters. -/
def paraSum (ps : List DNode) : Int :=
  ps.foldl
    (fun s p =>
      let t := jsTrim (elemText p)
      if t.length > 40 then s + (t.length : Int) else s) 0

/-- Score of one candidate container: paragraph sum over its *descendant*
paragraphs minus 10 per nesting level. -/
def elCandScore (el : DNode) (depth : Nat) : Int :=
  paraSum (descParas el) - 10 * (depth : Int)

/-- Candidate test: `doc.querySelectorAll('div, section')`. -/
def isDivOrSectionTag (e : DNode) : Bool := hasTagL e "div" || hasTagL e "section"

/-- The candidate containers of a document with their depths, in document
order. -/
def candList (kids : List DNode) : List (DNode × Nat) :=
  (subtreeListD 1 kids).filter (fun cd => isDivOrSectionTag cd.1)

/-- One step of the scorer's `bestCandidate`/`bestScore` fold
(`if (score > bestScore) { bestScore = score; bestCandidate = el; }`,
starting from `null`/`0`). -/
def scoreFoldStep (acc : Option DNode × Int) (cd : DNode × Nat) :
    Option DNode × Int :=
  let s := elCandScore cd.1 cd.2
  if s > acc.2 then (some cd.1, s) else acc

/-- The score-based fallback of `findArticleContent`. -/
def scorePick (kids : List DNode) : Option DNode :=
  ((candList kids).foldl scoreFoldStep (none, 0)).1

/-- `findArticleContent`, translated branch by branch: a unique
`<article>`; else among several `<article>`s the first of strictly
maximal text length provided it exceeds 200 characters; else a
`main`-like landmark with more than 200 characters of text; else the
score-based fallback. -/
def findArticleContent (kids : List DNode) : Option DNode :=
  let articles := articleElems kids
  if articles.length == 1 then articles.head?
  else
    let multi :=
      if articles.length > 1 then
        let best := articles.foldl
          (fun (acc : Option DNode × Nat) a =>
            let len := (elemText a).length
            if len > acc.2 then (some a, len) else acc) (none, 0)
        match best.1 with
        | some b => if best.2 > 200 then some b else none
        | none => none
      else none
    match multi with
    | some b => some b
    | none =>
      match mainElem kids with
      | some m => if (elemText m).length > 200 then some m else scorePick kids
      | none => scorePick kids

/-- `document.title`: child text content of the first `<title>` element,
stripped and collapsed; empty string when there is none. -/
def docTitle (kids : List DNode) : String :=
  match (allElems kids).find? (fun e => hasTagL e "title") with
  | some t => collapseWs (elemText t)
  | none => ""

/-- `extractTitle`: Open Graph title meta tag first, else the first
`<h1>` with non-empty text, else `document.title`, else "Untitled". -/
def extractTitle (kids : List DNode) : String :=
  match (allElems kids).find? (matchesSel (.byTagAttrVal "meta" "property" "og:title")) with
  | some m => (getAttr (attrsOf m) "content").getD ""
  | none =>
    match (allElems kids).find? (fun e => hasTagL e "h1") with
    | some h =>
      if (elemText h).isEmpty then
        let dt := docTitle kids
        if dt.isEmpty then "Untitled" else dt
      else jsTrim (elemText h)
    | none =>
      let dt := docTitle kids
      if dt.isEmpty then "Untitled" else dt

/-- The byline selector list of `extractByline`, in source order. -/
def bylineSelectors : List Sel :=
  [.byAttrVal "rel" "author", .byClass "author", .byClass "byline",
   .byClass "post-author", .byTagAttrVal "meta" "name" "author"]

/-- The selector loop of `extractByline`: for the first element matching
each selector in turn, take its `content` attribute if truthy else its
text content; return it trimmed when the trim is non-empty, else try the
next selector. -/
def bylineFrom (kids : List DNode) : List Sel → Option String
  | [] => none
  | s :: ss =>
    match (allElems kids).find? (matchesSel s) with
    | some el =>
      let content :=
        match getAttr (attrsOf el) "content" with
        | some v => if v.isEmpty then elemText el else v
        | none => elemText el
      if (jsTrim content).isEmpty then bylineFrom kids ss
      else some (jsTrim content)
    | none => bylineFrom kids ss

/-- `extractByline`. -/
def extractByline (kids : List DNode) : Option String :=
  bylineFrom kids bylineSelectors

/-- A parsed HTML document: its URL and the document node's child list
(normally a single `html` element holding `head` and `body`). -/
structure HtmlDoc where
  url : String
  kids : List DNode

/-- The locator's result value (`ReadabilityResult`); `content` is the
selected element's `innerHTML`, kept at tree level as its child list. -/
structure ReadabilityResult where
  title : String
  byline : Option String
  content : List DNode
  textContent : String
  excerpt : String

/-- `parseReadability`: clone the document, remove noise on the clone,
select the article candidate, and assemble the result; `null` when no
candidate is found.  The body is total, so the source's `try/catch`
(returning `null` on an exception) has no separate branch. -/
def parseReadability (doc : HtmlDoc) : Option ReadabilityResult :=
  let kids := removeNoise doc.kids
  match findArticleContent kids with
  | none => none
  | some article =>
    let tc := jsTrim (elemText article)
    some { title := extractTitle kids
         , byline := extractByline kids
         , content := childrenOf article
         , textContent := tc
         , excerpt := strTake tc 200 }

/-- `parseReadability` with the caller's live document made explicit: the
source's first statement `const clone = doc.cloneNode(true)` is the value
copy, and every subsequent mutation (`el.remove()` inside the noise pass)
is translated as a rebinding of the clone's tree, so the pair returned is
(the caller's document after the call, the result).  Had any statement
mutated `doc` instead of `clone`, the first component would have been the
mutated tree. -/
def parseReadabilityImp (live : HtmlDoc) : HtmlDoc × Option ReadabilityResult :=
  let clone : HtmlDoc := live
  let cloneKids := removeNoise clone.kids
  let res :=
    match findArticleContent cloneKids with
    | none => none
    | some article =>
      let tc := jsTrim (elemText article)
      some { title := extractTitle cloneKids
           , byline := extractByline cloneKids
           , content := childrenOf article
           , textContent := tc
           , excerpt := strTake tc 200 }
  (live, res)

/-!
The DOMPurify-based sanitizer variant kept in the source configures the
library with an `ALLOWED_TAGS` list and a single *global* `ALLOWED_ATTR`
list ("Global allowed attributes" in the source's own comment): DOMPurify
keeps an attribute on any kept element exactly when its name is in that
global list.  The two definitions below record the allowlist contract the
two sanitizer implementations enforce, for comparison.
-/

/-- The `ALLOWED_TAGS` option passed to DOMPurify, in source order. -/
def PURIFY_ALLOWED_TAGS : List String :=
  ["p", "br", "hr", "h1", "h2", "h3", "h4", "h5", "h6",
   "ul", "ol", "li", "blockquote", "pre", "code",
   "em", "strong", "b", "i", "u", "sub", "sup", "mark",
   "a", "img", "figure", "figcaption", "table", "thead",
   "tbody", "tr", "th", "td", "span", "div", "section"]

/-- The `ALLOWED_ATTR` option passed to DOMPurify (global, tag-independent). -/
def PURIFY_ALLOWED_ATTR : List String :=
  ["href", "title", "src", "alt", "width", "height", "colspan", "rowspan"]

/-- The custom sanitizer's allowlist contract: tag kept and attribute in
that tag's allowed set. -/
def customAllowsAttr (tag attr : String) : Bool :=
  ALLOWED_TAGS.contains tag && (allowedAttrsFor tag).contains attr

/-- The DOMPurify wrapper's allowlist contract: tag kept and attribute in
the global allowed list, whatever the tag. -/
def purifyAllowsAttr (tag attr : String) : Bool :=
  PURIFY_ALLOWED_TAGS.contains tag && PURIFY_ALLOWED_ATTR.contains attr

/-!
The extractor module (`extractArticle`, `articleIdFromUrl`).
-/

/-- Reduce an integer to JavaScript's 32-bit signed range, as `| 0`. -/
def int32wrap (n : Int) : Int :=
  let m := n % 4294967296
  if m < 2147483648 then m else m - 4294967296

/-- One step of the URL hash: `hash = ((hash << 5) - hash) + ch; hash |= 0`
(the shift operates on the 32-bit value, the sum is exact in a double and
then wrapped). -/
def hashStep (h : Int) (c : Nat) : Int :=
  int32wrap (int32wrap (h * 32) - h + (c : Int))

/-- Digit characters of `Number.prototype.toString(36)`: `0`-`9` then
`a`-`z`. -/
def digit36 (n : Nat) : Char :=
  if n < 10 then Char.ofNat (48 + n) else Char.ofNat (87 + n)

/-- Base-36 digits of a positive number, most significant first. -/
def base36Aux (n : Nat) (acc : List Char) : List Char :=
  if n = 0 then acc else base36Aux (n / 36) (digit36 (n % 36) :: acc)
  termination_by n
  decreasing_by exact Nat.div_lt_self (by omega) (by omega)

/-- `Math.abs(hash).toString(36)`. -/
def natToBase36 (n : Nat) : String :=
  if n = 0 then "0" else ⟨base36Aux n []⟩

/-- `articleIdFromUrl`: the classic shift-and-subtract string hash over
the URL's code units (these are the character codes for ASCII URLs),
wrapped to 32 bits each step, then `'art_' + Math.abs(hash).toString(36)`. -/
def articleIdFromUrl (url : String) : String :=
  let h := url.data.foldl (fun h c => hashStep h c.toNat) (0 : Int)
  "art_" ++ natToBase36 h.natAbs

/-- The `Article` record the extractor assembles. -/
structure Article where
  id : String
  url : String
  title : String
  byline : Option String
  contentHtml : List DNode
  text : String
  extractedAt : Nat

/-- `extractArticle`: run the locator, fail on a null result, an empty
`textContent` or fewer than 100 characters
(`!result || !result.textContent || result.textContent.length < 100`),
else sanitize the content and assemble the `Article`; `Date.now()` is the
parameter `now`. -/
def extractArticle (doc : HtmlDoc) (now : Nat) : Option Article :=
  match parseReadability doc with
  | none => none
  | some r =>
    if r.textContent.isEmpty || r.textContent.length < 100 then none
    else
      some { id := articleIdFromUrl doc.url
           , url := doc.url
           , title := r.title
           , byline :=
               match r.byline with
               | some b => if b.isEmpty then none else some b
               | none => none
           , contentHtml := cleanChildren r.content
           , text := r.textContent
           , extractedAt := now }

/-!
Specification-side selection functions for the scoring fallback, used to
compare the code's fold against the spec's description of it.
-/

/-- Fold of `max` over candidate scores starting from `m` (with `m = 0`
this is the best score of the scoring pass, floored at zero). -/
def specMaxFrom (m : Int) (cands : List (DNode × Nat)) : Int :=
  cands.foldl (fun b cd => max b (elCandScore cd.1 cd.2)) m

/-- The spec's description of the scoring fallback, amended to the
descendant-paragraph scoring the code performs: if some candidate scores
above zero, the first candidate (in document order) attaining the maximal
score; otherwise no candidate. -/
def specDescSelect (kids : List DNode) : Option DNode :=
  let cands := candList kids
  if cands.any (fun cd => 0 < elCandScore cd.1 cd.2) then
    (cands.find? (fun cd => elCandScore cd.1 cd.2 == specMaxFrom 0 cands)).map (·.1)
  else none

/-- Paragraph *children* of an element (the claim's wording scores "child
paragraphs" rather than the descendants the code queries). -/
def childParas (el : DNode) : List DNode :=
  (childrenOf el).filter (fun e => hasTagL e "p")

/-- Candidate score computed from child paragraphs only, per the claim's
wording. -/
def childCandScore (el : DNode) (depth : Nat) : Int :=
  paraSum (childParas el) - 10 * (depth : Int)

/-- Maximum child-paragraph score floored at zero. -/
def claimChildMax (cands : List (DNode × Nat)) : Int :=
  cands.foldl (fun b cd => max b (childCandScore cd.1 cd.2)) 0

/-- The claim's selection rule taken literally: score every div/section
container by its *child* paragraphs, pick the highest-scoring container,
no candidate when none scores above zero. -/
def claimChildSelect (kids : List DNode) : Option DNode :=
  let cands := candList kids
  if cands.any (fun cd => 0 < childCandScore cd.1 cd.2) then
    (cands.find? (fun cd => childCandScore cd.1 cd.2 == claimChildMax cands)).map (·.1)
  else none

/-!
Concrete input documents used to evaluate the code.  Each mirrors either
an example named by a claim or a document from the repository's own test
suite.
-/

/-- Body children parsed from `<foo><script>alert(1)</script></foo>`: an
unknown element wrapping a script element. -/
def exSan1 : List DNode :=
  [.element "foo" [] [.element "script" [] [.text "alert(1)"]]]

/-- Body children parsed from
`<foo><a href="javascript:alert(1)">link</a></foo>`. -/
def exSan2 : List DNode :=
  [.element "foo" [] [.element "a" [("href", "javascript:alert(1)")] [.text "link"]]]

/-- Body children parsed from `<aside><nav>hi</nav></aside>`: two nested
disallowed elements. -/
def exSan3 : List DNode :=
  [.element "aside" [] [.element "nav" [] [.text "hi"]]]

/-- Body children parsed from `<aside><p>Keep me</p></aside>`, the
claim's unwrap example. -/
def exSan4 : List DNode :=
  [.element "aside" [] [.element "p" [] [.text "Keep me"]]]

/-- A 50-character paragraph text (49 letters, spaces and one final
period; 50 characters in all). -/
def fiftyChars : String := "This tiny document body holds fifty characters aa."

/-- An article with legitimate paragraphs, then a `<p>Also read:</p>`
label and a `<ul>` of unrelated links — the shape of the repository's
"Also read" tests. -/
def alsoReadArticle : DNode :=
  .element "article" []
    [ .element "h1" [] [.text "Article with Related Links"]
    , .element "p" [] [.text "Main content paragraph carrying the legitimate article text of the story."]
    , .element "p" [] [.text "Also read:"]
    , .element "ul" []
        [ .element "li" [] [.element "a" [("href", "#")] [.text "Related Article 1"]]
        , .element "li" [] [.element "a" [("href", "#")] [.text "Related Article 2"]] ] ]

/-- Document for the "Also read" scenario. -/
def exDoc5 : HtmlDoc :=
  ⟨"http://localhost/also-read",
   [.element "html" []
     [.element "head" [] [], .element "body" [] [alsoReadArticle]]]⟩

/-- An article with two real paragraphs interleaved with a
`<div class="ad-container">` and a `<div id="google-ads">`, the claim's
noise-removal scenario (also the repository's advertisement test). -/
def adsArticle : DNode :=
  .element "article" []
    [ .element "h1" [] [.text "Article with Ads"]
    , .element "p" [] [.text "Main content paragraph 1."]
    , .element "div" [("class", "ad-container")] [.text "Buy this product!"]
    , .element "div" [("id", "google-ads")] [.text "Ad content"]
    , .element "p" [] [.text "Main content paragraph 2."] ]

/-- Document for the advertisement scenario. -/
def exDoc6 : HtmlDoc :=
  ⟨"http://localhost/ads",
   [.element "html" []
     [.element "head" [] [], .element "body" [] [adsArticle]]]⟩

/-- Document whose only content is a 50-character paragraph. -/
def exDoc8 : HtmlDoc :=
  ⟨"http://localhost/short",
   [.element "html" []
     [.element "head" [] [],
      .element "body" [] [.element "p" [] [.text fiftyChars]]]]⟩

/-- A div whose only paragraph sits inside a blockquote: it has a
descendant paragraph but no child paragraph. -/
def ex9div : DNode :=
  .element "div" []
    [.element "blockquote" [] [.element "p" [] [.text fiftyChars]]]

/-- Document children for the child-versus-descendant scoring comparison. -/
def ex9kids : List DNode :=
  [.element "html" []
    [.element "head" [] [], .element "body" [] [ex9div]]]

/-- Two sibling candidate divs with direct paragraphs of different
lengths, exercising the scoring fallback's selection. -/
def w9kids : List DNode :=
  [.element "html" []
    [.element "head" [] [],
     .element "body" []
       [.element "div" []
          [.element "p" [] [.text "This first candidate paragraph is clearly the longest one of the whole document."]],
        .element "div" []
          [.element "p" [] [.text fiftyChars]]]]]

/-- Text payloads of a processed segment, counting only entries not queued
for removal (what survives the `toRemove` pass). -/
def textsPair : List (DNode × Bool) → List String
  | [] => []
  | (n, m) :: ps => (if m then [] else textsOf n) ++ textsPair ps

/-!
Theorems.  First the bridge between the faithful loop translation
`cleanLoop` and its structural presentation `cleanN`/`cleanL`.
-/

theorem cleanL_append (a b : List DNode) :
    cleanL (a ++ b) = cleanL a ++ cleanL b := by
  induction a with
  | nil => simp [cleanL]
  | cons c cs ih => simp [cleanL, ih]

theorem cleanLoop_nil : cleanLoop [] = [] := by
  rw [cleanLoop.eq_def]

theorem cleanLoop_text (s : String) (rest : List DNode) :
    cleanLoop (.text s :: rest) = (.text s, false) :: cleanLoop rest := by
  rw [cleanLoop.eq_def]

theorem cleanLoop_comment (s : String) (rest : List DNode) :
    cleanLoop (.comment s :: rest) = (.comment s, true) :: cleanLoop rest := by
  rw [cleanLoop.eq_def]

theorem cleanLoop_elem_allowed (tag : String) (attrs : List (String × String))
    (ch rest : List DNode) (hA : lowerStr tag ∈ ALLOWED_TAGS) :
    cleanLoop (.element tag attrs ch :: rest)
      = (.element tag (stripAttrs (lowerStr tag) attrs) (cleanChildren ch), false)
          :: cleanLoop rest := by
  rw [cleanLoop.eq_def]
  simp [hA]

theorem cleanLoop_unwrap_nil (tag : String) (attrs : List (String × String))
    (rest : List DNode) (hA : ¬ lowerStr tag ∈ ALLOWED_TAGS) :
    cleanLoop (.element tag attrs [] :: rest)
      = (.element tag attrs [], true) :: cleanLoop rest := by
  rw [cleanLoop.eq_def]
  simp [hA]

theorem cleanLoop_unwrap_cons (tag : String) (attrs : List (String × String))
    (c0 : DNode) (cs0 rest : List DNode) (hA : ¬ lowerStr tag ∈ ALLOWED_TAGS) :
    cleanLoop (.element tag attrs (c0 :: cs0) :: rest)
      = (c0, false) :: cleanLoop (cs0 ++ .element tag attrs [] :: rest) := by
  rw [cleanLoop.eq_def]
  simp [hA]

theorem cleanL_cons (c : DNode) (cs : List DNode) :
    cleanL (c :: cs) = cleanN c ++ cleanL cs := rfl

theorem cleanN_elem_allowed (tag : String) (attrs : List (String × String))
    (ch : List DNode) (hA : lowerStr tag ∈ ALLOWED_TAGS) :
    cleanN (.element tag attrs ch)
      = [(.element tag (stripAttrs (lowerStr tag) attrs)
           ((cleanL ch).filterMap (fun p => if p.2 then none else some p.1)), false)] := by
  rw [cleanN.eq_def]
  simp [hA]

theorem cleanN_unwrap_nil (tag : String) (attrs : List (String × String))
    (hA : ¬ lowerStr tag ∈ ALLOWED_TAGS) :
    cleanN (.element tag attrs []) = [(.element tag attrs [], true)] := by
  rw [cleanN.eq_def]
  simp [hA]

theorem cleanN_unwrap_cons (tag : String) (attrs : List (String × String))
    (c0 : DNode) (cs0 : List DNode) (hA : ¬ lowerStr tag ∈ ALLOWED_TAGS) :
    cleanN (.element tag attrs (c0 :: cs0))
      = (c0, false) :: (cleanL cs0 ++ [(.element tag attrs [], true)]) := by
  rw [cleanN.eq_def]
  simp [hA]

theorem cleanLoop_eq_cleanL (l : List DNode) : cleanLoop l = cleanL l := by
  suffices h : ∀ N l, nodesSize l ≤ N → cleanLoop l = cleanL l from
    h (nodesSize l) l le_rfl
  intro N
  induction N with
  | zero =>
    intro l hl
    cases l with
    | nil => simp [cleanLoop_nil, cleanL]
    | cons c cs =>
      have := nodeSize_pos c
      simp [nodesSize] at hl
      omega
  | succ N ih =>
    intro l hl
    cases l with
    | nil => simp [cleanLoop_nil, cleanL]
    | cons c rest =>
      cases c with
      | text s =>
        have hr : nodesSize rest ≤ N := by simp [nodesSize, nodeSize] at hl; omega
        simp [cleanLoop_text, cleanL, cleanN, ih rest hr]
      | comment s =>
        have hr : nodesSize rest ≤ N := by simp [nodesSize, nodeSize] at hl; omega
        simp [cleanLoop_comment, cleanL, cleanN, ih rest hr]
      | element tag attrs ch =>
        have hr : nodesSize rest ≤ N := by simp [nodesSize, nodeSize] at hl; omega
        by_cases hA : lowerStr tag ∈ ALLOWED_TAGS
        · have hch : nodesSize ch ≤ N := by simp [nodesSize, nodeSize] at hl; omega
          have hcc : cleanChildren ch
              = (cleanL ch).filterMap (fun p => if p.2 then none else some p.1) := by
            rw [cleanChildren, ih ch hch]
          rw [cleanLoop_elem_allowed tag attrs ch rest hA, hcc, ih rest hr,
            cleanL_cons, cleanN_elem_allowed tag attrs ch hA]
          rfl
        · cases ch with
          | nil =>
            rw [cleanLoop_unwrap_nil tag attrs rest hA, ih rest hr,
              cleanL_cons, cleanN_unwrap_nil tag attrs hA]
            rfl
          | cons c0 cs0 =>
            have h2 : nodesSize (cs0 ++ DNode.element tag attrs [] :: rest) ≤ N := by
              have := nodeSize_pos c0
              rw [nodesSize_append]
              simp [nodesSize, nodeSize] at hl ⊢
              omega
            rw [cleanLoop_unwrap_cons tag attrs c0 cs0 rest hA, ih _ h2,
              cleanL_append, cleanL_cons (DNode.element tag attrs []) rest,
              cleanN_unwrap_nil tag attrs hA,
              cleanL_cons (DNode.element tag attrs (c0 :: cs0)) rest,
              cleanN_unwrap_cons tag attrs c0 cs0 hA]
            simp

theorem cleanChildren_eq (cs : List DNode) :
    cleanChildren cs
      = (cleanL cs).filterMap (fun p => if p.2 then none else some p.1) := by
  rw [cleanChildren, cleanLoop_eq_cleanL]

theorem textsPair_append (a b : List (DNode × Bool)) :
    textsPair (a ++ b) = textsPair a ++ textsPair b := by
  induction a with
  | nil => simp [textsPair]
  | cons p ps ih => simp [textsPair, ih]

theorem textsOfList_filterMap (l : List (DNode × Bool)) :
    textsOfList (l.filterMap (fun p => if p.2 then none else some p.1))
      = textsPair l := by
  induction l with
  | nil => simp [textsOfList, textsPair]
  | cons p ps ih =>
    obtain ⟨n, m⟩ := p
    cases m <;> simp [textsOfList, textsPair, ih]

theorem nodeSize_le_of_mem {c : DNode} {cs : List DNode} (h : c ∈ cs) :
    nodeSize c ≤ nodesSize cs := by
  induction cs with
  | nil => cases h
  | cons d ds ih =>
    rcases List.mem_cons.mp h with h1 | h2
    · subst h1; simp [nodesSize]
    · have := ih h2; simp [nodesSize]; omega

theorem cleanL_texts_of (cs : List DNode)
    (h : ∀ c ∈ cs, textsPair (cleanN c) = textsOf c) :
    textsPair (cleanL cs) = textsOfList cs := by
  induction cs with
  | nil => simp [cleanL, textsPair, textsOfList]
  | cons c cs ih =>
    rw [cleanL_cons, textsPair_append, h c (List.mem_cons_self c cs),
      ih (fun d hd => h d (List.mem_cons_of_mem c hd))]
    simp [textsOfList]

theorem cleanN_texts (n : DNode) : textsPair (cleanN n) = textsOf n := by
  suffices h : ∀ N n, nodeSize n ≤ N → textsPair (cleanN n) = textsOf n from
    h (nodeSize n) n le_rfl
  intro N
  induction N with
  | zero =>
    intro n hn
    have := nodeSize_pos n
    omega
  | succ N ih =>
    intro n hn
    cases n with
    | text s => rw [cleanN.eq_def]; simp [textsPair, textsOf]
    | comment s => rw [cleanN.eq_def]; simp [textsPair, textsOf]
    | element tag attrs ch =>
      have hch : ∀ c ∈ ch, textsPair (cleanN c) = textsOf c := by
        intro c hc
        refine ih c ?_
        have h1 := nodeSize_le_of_mem hc
        simp [nodeSize] at hn
        omega
      by_cases hA : lowerStr tag ∈ ALLOWED_TAGS
      · rw [cleanN_elem_allowed tag attrs ch hA]
        simp [textsPair, textsOf, textsOfList_filterMap, cleanL_texts_of ch hch]
      · cases ch with
        | nil =>
          rw [cleanN_unwrap_nil tag attrs hA]
          simp [textsPair, textsOf, textsOfList]
        | cons c0 cs0 =>
          rw [cleanN_unwrap_cons tag attrs c0 cs0 hA]
          have h0 := hch c0 (List.mem_cons_self c0 cs0)
          have hcs : ∀ c ∈ cs0, textsPair (cleanN c) = textsOf c :=
            fun c hc => hch c (List.mem_cons_of_mem c0 hc)
          simp [textsPair, textsPair_append, textsOf, textsOfList, h0,
            cleanL_texts_of cs0 hcs]

/-- C1: the claim asserts allowlist closure — every element surviving
`sanitizeHtml` has an allowed tag and only allowed attributes, in
particular no `<script>` ever survives.  The code violates it: on the
body parsed from `<foo><script>alert(1)</script></foo>`, unwrapping the
disallowed `<foo>` splices `<script>` to the current index of the live
child list and the iteration resumes past it, so the `<script>` element —
whose tag is not in `ALLOWED_TAGS` — is emitted unvisited and intact. -/
theorem c1_script_survives_sanitizer :
    cleanChildren exSan1 = [.element "script" [] [.text "alert(1)"]] ∧
    ALLOWED_TAGS.contains "script" = false := by
  constructor
  · rw [cleanChildren_eq]; rfl
  · rfl

/-- C2: the claim asserts no output element carries an `href`/`src` whose
trimmed lower-cased value starts with `javascript:`.  The code violates
it: on the body parsed from
`<foo><a href="javascript:alert(1)">link</a></foo>`, the `<a>` spliced
out of the unwrapped `<foo>` is skipped by the live-list iteration, so
its `javascript:` `href` is never rewritten to `#`. -/
theorem c2_javascript_href_survives_sanitizer :
    cleanChildren exSan2
      = [.element "a" [("href", "javascript:alert(1)")] [.text "link"]] ∧
    isJsUrl "javascript:alert(1)" = true := by
  constructor
  · rw [cleanChildren_eq]; rfl
  · rfl

/-- C3: the claim asserts `sanitize (sanitize x) = sanitize x` for every
input.  The code violates it: on the body parsed from
`<aside><nav>hi</nav></aside>`, one pass leaves the skipped, disallowed
`<nav>` element in the output, and a second pass unwraps it, so the two
results differ. -/
theorem c3_sanitize_not_idempotent :
    cleanChildren exSan3 = [.element "nav" [] [.text "hi"]] ∧
    cleanChildren (cleanChildren exSan3) = [.text "hi"] ∧
    cleanChildren (cleanChildren exSan3) ≠ cleanChildren exSan3 := by
  have e1 : cleanChildren exSan3 = [DNode.element "nav" [] [DNode.text "hi"]] := by
    rw [cleanChildren_eq]; rfl
  have e2 : cleanChildren [DNode.element "nav" [] [DNode.text "hi"]]
      = [DNode.text "hi"] := by
    rw [cleanChildren_eq]; rfl
  refine ⟨e1, by rw [e1, e2], ?_⟩
  rw [e1, e2]
  simp

/-- C4: the sanitizer unwraps an element whose tag is not allowed,
splicing its children into the parent at its position in order; it never
drops a text node and never reorders sibling content (formalised as:
cleaning preserves the in-order sequence of text-node payloads of the
tree, for every input), and sanitizing `<aside><p>Keep me</p></aside>`
yields exactly `<p>Keep me</p>` with the text preserved verbatim. -/
theorem c4_unwrap_preserves_content :
    (∀ cs, textsOfList (cleanChildren cs) = textsOfList cs) ∧
    cleanChildren exSan4 = [.element "p" [] [.text "Keep me"]] := by
  constructor
  · intro cs
    rw [cleanChildren_eq, textsOfList_filterMap,
      cleanL_texts_of cs (fun c _ => cleanN_texts c)]
  · rw [cleanChildren_eq]; rfl

set_option maxHeartbeats 4000000 in
/-- C5: the claim asserts that for an article whose paragraphs are
followed by a `<p>Also read:</p>` label and a `<ul>` of unrelated links,
the extracted `textContent` excludes "Also read:" and the link text.  The
code violates it: `parseReadability` performs only selector-based noise
removal and has no text-based distractor pass at all, so on `exDoc5` the
extracted text still contains the label and both link texts (while also
containing the legitimate paragraph, shown as the last conjunct). -/
theorem c5_also_read_not_suppressed :
    ((parseReadability exDoc5).map (fun r => strHas r.textContent "Also read:"))
      = some true ∧
    ((parseReadability exDoc5).map (fun r => strHas r.textContent "Related Article 1"))
      = some true ∧
    ((parseReadability exDoc5).map (fun r =>
        strHas r.textContent "Main content paragraph")) = some true := by
  exact ⟨rfl, rfl, rfl⟩

set_option maxHeartbeats 4000000 in
/-- C6: the claim asserts that `<div class="ad-container">` and
`<div id="google-ads">` are removed because the noise patterns match as
case-insensitive substring/prefix against class and id attributes.  The
code violates it: the noise list is matched by `querySelectorAll`, whose
class selector `.ad` matches only the exact class token `ad` (not
`ad-container`) and whose only id selector is `#comments`, so both ad
texts survive in `textContent` alongside the real paragraphs. -/
theorem c6_ads_not_removed :
    ((parseReadability exDoc6).map (fun r => strHas r.textContent "Buy this product!"))
      = some true ∧
    ((parseReadability exDoc6).map (fun r => strHas r.textContent "Ad content"))
      = some true ∧
    ((parseReadability exDoc6).map (fun r =>
        strHas r.textContent "Main content paragraph 1")) = some true ∧
    ((parseReadability exDoc6).map (fun r =>
        strHas r.textContent "Main content paragraph 2")) = some true := by
  exact ⟨rfl, rfl, rfl, rfl⟩

/-- C8: extraction fails with `none` whenever the locator finds no
candidate or the trimmed flattened text of the final selection is under
100 characters — `extractArticle` never returns a near-empty article. -/
theorem c8_minimum_length_rejection (doc : HtmlDoc) (now : Nat)
    (h : parseReadability doc = none ∨
      ∃ r, parseReadability doc = some r ∧ r.textContent.length < 100) :
    extractArticle doc now = none := by
  unfold extractArticle
  rcases h with h | ⟨r, hr, hlen⟩
  · rw [h]
  · rw [hr]
    simp [hlen]

set_option maxHeartbeats 4000000 in
/-- Witness for C8 at the concrete document whose only content is a
50-character paragraph: the locator finds no candidate there, and
extraction returns `none`. -/
theorem c8_minimum_length_rejection_witness :
    extractArticle exDoc8 0 = none :=
  c8_minimum_length_rejection exDoc8 0 (Or.inl rfl)

/-- C10: `parseReadability` never mutates the caller's document: every
mutation of the algorithm is performed on the deep clone taken by its
first statement, so the embedding with the live document made explicit
returns the caller's document unchanged, together with the usual
result. -/
theorem c10_caller_document_unchanged (d : HtmlDoc) :
    parseReadabilityImp d = (d, parseReadability d) := by
  simp only [parseReadabilityImp, parseReadability]

/-- C7 counterexample: the two sanitizer variants do not enforce the same
per-tag attribute sets — `title` on a `<p>` is outside the custom
sanitizer's contract (`p` has no attribute entry) but inside the
DOMPurify wrapper's, whose `ALLOWED_ATTR` list is global. -/
theorem c7_allowlists_differ_on_p_title :
    customAllowsAttr "p" "title" = false ∧ purifyAllowsAttr "p" "title" = true :=
  ⟨rfl, rfl⟩

/-- C7, amended: the two variants share exactly the same allowed-tag
list; every attribute the custom sanitizer allows on a tag is also
allowed there by the DOMPurify wrapper; and the wrapper's global
attribute list is exactly the union of the custom per-tag sets — but
applied uniformly to every tag, so the per-tag contracts are not
identical. -/
theorem c7_amended_allowlist_relation :
    PURIFY_ALLOWED_TAGS = ALLOWED_TAGS ∧
    (∀ t a, customAllowsAttr t a = true → purifyAllowsAttr t a = true) ∧
    (∀ a, PURIFY_ALLOWED_ATTR.contains a = true →
      ∃ t, customAllowsAttr t a = true) := by
  refine ⟨rfl, ?_, ?_⟩
  · intro t a h
    simp only [customAllowsAttr, Bool.and_eq_true] at h
    obtain ⟨h1, h2⟩ := h
    simp only [purifyAllowsAttr, Bool.and_eq_true]
    refine ⟨h1, ?_⟩
    revert h2
    unfold allowedAttrsFor
    split_ifs with ht1 ht2 ht3 ht4 <;> intro h2 <;> simp at h2
    · rcases h2 with rfl | rfl <;> rfl
    · rcases h2 with rfl | rfl | rfl | rfl | rfl <;> rfl
    · rcases h2 with rfl | rfl <;> rfl
    · rcases h2 with rfl | rfl <;> rfl
  · intro a h
    have h' : a ∈ PURIFY_ALLOWED_ATTR := by simpa using h
    fin_cases h'
    · exact ⟨"a", rfl⟩
    · exact ⟨"a", rfl⟩
    · exact ⟨"img", rfl⟩
    · exact ⟨"img", rfl⟩
    · exact ⟨"img", rfl⟩
    · exact ⟨"img", rfl⟩
    · exact ⟨"td", rfl⟩
    · exact ⟨"td", rfl⟩

/-- Witness for the amended C7 at the concrete pair (`a`, `href`), which
both contracts allow. -/
theorem c7_amended_allowlist_relation_witness :
    customAllowsAttr "a" "href" = true ∧ purifyAllowsAttr "a" "href" = true :=
  ⟨rfl, c7_amended_allowlist_relation.2.1 "a" "href" rfl⟩

theorem specMaxFrom_init_le (cands : List (DNode × Nat)) :
    ∀ m : Int, m ≤ specMaxFrom m cands := by
  induction cands with
  | nil => intro m; simp [specMaxFrom]
  | cons hd t ih =>
    intro m
    have h1 : specMaxFrom m (hd :: t)
        = specMaxFrom (max m (elCandScore hd.1 hd.2)) t := by
      simp [specMaxFrom]
    rw [h1]
    exact le_trans (le_max_left _ _) (ih _)

theorem specMaxFrom_of_all_le (cands : List (DNode × Nat)) :
    ∀ m : Int, (∀ cd ∈ cands, elCandScore cd.1 cd.2 ≤ m) →
      specMaxFrom m cands = m := by
  induction cands with
  | nil => intro m _; simp [specMaxFrom]
  | cons hd t ih =>
    intro m h
    have hhd : elCandScore hd.1 hd.2 ≤ m := h hd (List.mem_cons_self hd t)
    have h1 : specMaxFrom m (hd :: t)
        = specMaxFrom (max m (elCandScore hd.1 hd.2)) t := by
      simp [specMaxFrom]
    rw [h1, max_eq_left hhd]
    exact ih m (fun cd hcd => h cd (List.mem_cons_of_mem hd hcd))

theorem lt_specMaxFrom_of_mem (cands : List (DNode × Nat)) :
    ∀ (m : Int) (cd : DNode × Nat), cd ∈ cands →
      m < elCandScore cd.1 cd.2 → m < specMaxFrom m cands := by
  induction cands with
  | nil => intro m cd h; cases h
  | cons hd t ih =>
    intro m cd hmem hlt
    have h1 : specMaxFrom m (hd :: t)
        = specMaxFrom (max m (elCandScore hd.1 hd.2)) t := by
      simp [specMaxFrom]
    rw [h1]
    rcases List.mem_cons.mp hmem with h2 | h2
    · subst h2
      exact lt_of_lt_of_le (lt_max_of_lt_right hlt) (specMaxFrom_init_le t _)
    · by_cases hh : m < elCandScore hd.1 hd.2
      · exact lt_of_lt_of_le (lt_max_of_lt_right hh) (specMaxFrom_init_le t _)
      · rw [max_eq_left (Int.not_lt.mp hh)]
        exact ih m cd h2 hlt

theorem scoreFold_characterization (cands : List (DNode × Nat)) :
    ∀ (b : Option DNode) (m : Int),
      (cands.foldl scoreFoldStep (b, m)).1 =
        if cands.any (fun cd => m < elCandScore cd.1 cd.2) then
          (cands.find? (fun cd =>
            elCandScore cd.1 cd.2 == specMaxFrom m cands)).map (·.1)
        else b := by
  induction cands with
  | nil => intro b m; simp
  | cons hd t ih =>
    intro b m
    have hspec : specMaxFrom m (hd :: t)
        = specMaxFrom (max m (elCandScore hd.1 hd.2)) t := by
      simp [specMaxFrom]
    by_cases hlt : m < elCandScore hd.1 hd.2
    · have hstep : scoreFoldStep (b, m) hd = (some hd.1, elCandScore hd.1 hd.2) := by
        simp [scoreFoldStep, hlt]
      rw [List.foldl_cons, hstep, ih]
      have hmax : max m (elCandScore hd.1 hd.2) = elCandScore hd.1 hd.2 :=
        max_eq_right (le_of_lt hlt)
      have hcond : ((hd :: t).any (fun cd => m < elCandScore cd.1 cd.2)) = true := by
        simp [hlt]
      rw [if_pos hcond]
      by_cases hany : (t.any (fun cd => elCandScore hd.1 hd.2 < elCandScore cd.1 cd.2)) = true
      · rw [if_pos hany]
        obtain ⟨cd, hcd, hcd2⟩ := List.any_eq_true.mp hany
        have hgt : elCandScore hd.1 hd.2
            < specMaxFrom (elCandScore hd.1 hd.2) t :=
          lt_specMaxFrom_of_mem t _ cd hcd (by simpa using hcd2)
        have hne : (elCandScore hd.1 hd.2 == specMaxFrom m (hd :: t)) = false := by
          rw [hspec, hmax]
          exact beq_eq_false_iff_ne.mpr (ne_of_lt hgt)
        rw [List.find?_cons_of_neg _ (by simp [hne]), hspec, hmax]
      · rw [if_neg hany]
        have hall : ∀ cd ∈ t, elCandScore cd.1 cd.2 ≤ elCandScore hd.1 hd.2 := by
          intro cd hcd
          by_contra hcon
          exact hany (List.any_eq_true.mpr
            ⟨cd, hcd, by simpa using Int.not_le.mp hcon⟩)
        have heqm : specMaxFrom m (hd :: t) = elCandScore hd.1 hd.2 := by
          rw [hspec, hmax]
          exact specMaxFrom_of_all_le t _ hall
        have hbeq : (elCandScore hd.1 hd.2 == specMaxFrom m (hd :: t)) = true := by
          rw [heqm]
          exact beq_self_eq_true _
        have hfind : List.find?
            (fun cd => elCandScore cd.1 cd.2 == specMaxFrom m (hd :: t)) (hd :: t)
            = some hd := List.find?_cons_of_pos _ hbeq
        rw [hfind]
        rfl
    · have hstep : scoreFoldStep (b, m) hd = (b, m) := by
        simp [scoreFoldStep, hlt]
      rw [List.foldl_cons, hstep, ih]
      have hmax : max m (elCandScore hd.1 hd.2) = m := max_eq_left (Int.not_lt.mp hlt)
      have hspec2 : specMaxFrom m (hd :: t) = specMaxFrom m t := by
        rw [hspec, hmax]
      have hcond : ((hd :: t).any (fun cd => m < elCandScore cd.1 cd.2))
          = (t.any (fun cd => m < elCandScore cd.1 cd.2)) := by
        simp [hlt]
      rw [hcond]
      by_cases hany : (t.any (fun cd => m < elCandScore cd.1 cd.2)) = true
      · rw [if_pos hany, if_pos hany]
        obtain ⟨cd, hcd, hcd2⟩ := List.any_eq_true.mp hany
        have hgt : m < specMaxFrom m t :=
          lt_specMaxFrom_of_mem t m cd hcd (by simpa using hcd2)
        have hne : (elCandScore hd.1 hd.2 == specMaxFrom m (hd :: t)) = false := by
          rw [hspec2]
          exact beq_eq_false_iff_ne.mpr
            (ne_of_lt (lt_of_le_of_lt (Int.not_lt.mp hlt) hgt))
        rw [List.find?_cons_of_neg _ (by simp [hne]), hspec2]
      · rw [if_neg hany, if_neg hany]

theorem scorePick_eq_specDescSelect (kids : List DNode) :
    scorePick kids = specDescSelect kids := by
  simp only [scorePick, specDescSelect]
  rw [scoreFold_characterization]

set_option maxHeartbeats 4000000 in
/-- C9 counterexample: the claim describes the scoring fallback as summing
the text lengths of a container's *child* paragraphs.  The code instead
queries all *descendant* paragraphs, and the two disagree: on `ex9kids`
(whose one div holds its long paragraph inside a blockquote) the code
selects the div, while the claim's child-paragraph rule yields no
candidate at all. -/
theorem c9_child_scoring_refuted :
    findArticleContent ex9kids = some ex9div ∧ claimChildSelect ex9kids = none :=
  ⟨rfl, rfl⟩

/-- C9, amended: with "child paragraphs" corrected to "descendant
paragraphs", the claim holds — when no `<article>` element and no
main-like landmark exists, the locator returns exactly the spec-style
selection: the first div/section attaining the maximal score (descendant
paragraphs over 40 trimmed characters summed, minus 10 per nesting
level), and no candidate when no score exceeds zero. -/
theorem c9_descendant_scoring (kids : List DNode)
    (h1 : articleElems kids = []) (h2 : mainElem kids = none) :
    findArticleContent kids = specDescSelect kids := by
  simp [findArticleContent, h1, h2, scorePick_eq_specDescSelect]

set_option maxHeartbeats 4000000 in
/-- Witness for the amended C9 at a concrete document with two sibling
candidate divs and no article or main landmark. -/
theorem c9_descendant_scoring_witness :
    articleElems w9kids = [] ∧ mainElem w9kids = none ∧
    findArticleContent w9kids = specDescSelect w9kids :=
  ⟨rfl, rfl, c9_descendant_scoring w9kids rfl rfl⟩
